import Mathlib

/-!
Verification of `torchdiffeq/_impl/misc.py`.

Shallow embedding conventions:
* A torch tensor is modelled by its shape (a list of extents) together with its
  flattened data.  The validation / shape layer (`_check_inputs`,
  `_flat_to_shape`, `_decreasing`, `_assert_increasing`, `_ReverseFunc`,
  `_TupleFunc`, `_scaled_dot_product`) is modelled over `ℚ`, an exact model of
  the finite floating-point values these routines merely compare, negate,
  slice and concatenate.
* The numeric layer (`_norm`, `_select_initial_step`, `_optimal_step_size`)
  involves square roots and real powers, so it is modelled over `ℝ`.  There a
  tensor appears only through its flattened data (`List ℝ`), since those
  routines are shape-oblivious.
* Python exceptions (assertions, `TypeError`, the `RuntimeError` raised by
  `Tensor.view` on a size mismatch) are modelled with `Except String` /
  `Option`.
* Python `max(...)` over a nonempty tuple is modelled by `maxL`; theorems that
  rely on it carry nonemptiness hypotheses matching Python, where `max` of an
  empty tuple would raise.
-/

/-! ### Tensors and the shape layer (`ℚ`-valued) -/

/-- A torch tensor: a shape together with its row-major flattened data. -/
structure Tensor where
  shape : List ℕ
  data : List ℚ
deriving DecidableEq

/-- Number of elements of a shape, `torch.Size.numel`. -/
def numelOf (shape : List ℕ) : ℕ := shape.prod

/-- `torch.cat([y0_.reshape(-1) for y0_ in y0])` (misc.py line 186). -/
def flattenTuple (ys : List Tensor) : List ℚ := (ys.map Tensor.data).flatten

/-- `[y0_.shape for y0_ in y0]` (misc.py line 185). -/
def tupleShapes (ys : List Tensor) : List (List ℕ) := ys.map Tensor.shape

/-- `_flat_to_shape(tensor, shapes)` (misc.py lines 134-141).  The slice
`tensor[total:next_total]` clamps like Python slicing (`List.take` /
`List.drop` clamp the same way); `.view(*shape)` raises unless the slice holds
exactly `shape.numel()` elements, and that error is modelled by `none`. -/
def flat_to_shape (v : List ℚ) (shapes : List (List ℕ)) : Option (List Tensor) :=
  match shapes with
  | [] => some []
  | s :: rest =>
    let piece := v.take (numelOf s)
    if piece.length = numelOf s then
      (flat_to_shape (v.drop (numelOf s)) rest).map (fun l => ⟨s, piece⟩ :: l)
    else
      none

/-- Sum of the per-component element counts of a shape descriptor. -/
def sumNumels (shapes : List (List ℕ)) : ℕ := (shapes.map numelOf).sum

/-- `(t[1:] > t[:-1]).all()`, the condition asserted by `_assert_increasing`
(misc.py lines 130-131); vacuously true on grids with fewer than two points. -/
def adjacent_increasing : List ℚ → Bool
  | a :: b :: r => decide (a < b) && adjacent_increasing (b :: r)
  | _ => true

/-- `_decreasing(t)` = `(t[1:] < t[:-1]).all()` (misc.py lines 122-123);
vacuously true on grids with fewer than two points. -/
def decreasing : List ℚ → Bool
  | a :: b :: r => decide (b < a) && decreasing (b :: r)
  | _ => true

/-- Elementwise negation `-t` of a tensor. -/
def negT (x : Tensor) : Tensor := ⟨x.shape, x.data.map (fun v => -v)⟩

/-- A right-hand-side function value as `_check_inputs` manipulates it: either
a native callable (on a flat state or on a tuple state), or one of the two
wrapper modules `_TupleFunc` (misc.py lines 144-152) and `_ReverseFunc`
(misc.py lines 155-161), each holding its `base_func`. -/
inductive Func where
  | vecF (f : ℚ → List ℚ → List ℚ)
  | tupF (f : ℚ → List Tensor → List Tensor)
  | tupleFunc (base : Func) (shapes : List (List ℕ))
  | reverseFunc (base : Func)

/-- Negation of a flat derivative, the `-` in `_ReverseFunc.forward`. -/
def negL (l : List ℚ) : List ℚ := l.map (fun v => -v)

/-- Calling a `Func` on a tuple state.  Only a native tuple callable can be
called this way in the source; the remaining constructors never receive a
tuple state and are given the junk value `[]`. -/
def applyTuple : Func → ℚ → List Tensor → List Tensor
  | .tupF f, t, y => f t y
  | _, _, _ => []

/-- Calling a `Func` on a flat state (`forward` of the wrapper modules):
`_TupleFunc.forward` unflattens, calls the base on the tuple and concatenates
the result; `_ReverseFunc.forward` returns `-base_func(-t, y)`.  A native
tuple callable never receives a flat state in the source and is given the
junk value `[]`. -/
def applyVec : Func → ℚ → List ℚ → List ℚ
  | .vecF f, t, y => f t y
  | .tupF _, _, _ => []
  | .tupleFunc base shapes, t, y =>
    match flat_to_shape y shapes with
    | some tup => flattenTuple (applyTuple base t tup)
    | none => []
  | .reverseFunc base, t, y => negL (applyVec base (-t) y)

/-- The initial state argument of `_check_inputs`: a single tensor or a tuple
of tensors. -/
inductive Y0 where
  | tensor (x : Tensor)
  | tuple (xs : List Tensor)

/-- The part of `_check_inputs` from line 180 on: tuple detection and
flattening, the `y0` dtype check, and the time-direction normalization
(misc.py lines 180-202).  `y0_floating` models `torch.is_floating_point(y0)`
of the (possibly concatenated) initial state. -/
def check_inputs_tail (func : Func) (y0 : Y0) (y0_floating : Bool) (t : Tensor)
    (gridPoints : Option Tensor) :
    Except String (Bool × List (List ℕ) × Func × Tensor × Tensor × Option Tensor) :=
  let packed : Bool × List (List ℕ) × Func × Tensor :=
    match y0 with
    | .tensor x => (true, [], func, x)
    | .tuple xs =>
      (false, tupleShapes xs, Func.tupleFunc func (tupleShapes xs),
        ⟨[(flattenTuple xs).length], flattenTuple xs⟩)
  if y0_floating then
    if decreasing t.data then
      .ok (packed.1, packed.2.1, Func.reverseFunc packed.2.2.1, packed.2.2.2,
        negT t, gridPoints.map negT)
    else
      .ok (packed.1, packed.2.1, packed.2.2.1, packed.2.2.2, t, gridPoints)
  else
    .error "y0 must be a floating point Tensor"

/-- `_check_inputs(func, y0, t, options)` (misc.py lines 164-202).
`t_floating` models `torch.is_floating_point(t)`; of the options dictionary
only the `grid_points` entry is inspected, so it stands for the options.  The
checks run in source order: `t` one-dimensional, `(t[1:] > t[:-1]).all()`,
`t` floating, then the `grid_points` checks, then the `y0` handling and the
decreasing-grid normalization. -/
def check_inputs (func : Func) (y0 : Y0) (y0_floating : Bool) (t : Tensor)
    (t_floating : Bool) (gridPoints : Option Tensor) :
    Except String (Bool × List (List ℕ) × Func × Tensor × Tensor × Option Tensor) :=
  if t.shape.length = 1 then
    if adjacent_increasing t.data then
      if t_floating then
        match gridPoints with
        | some g =>
          if g.shape.length = 1 then
            if adjacent_increasing g.data then
              check_inputs_tail func y0 y0_floating t (some g)
            else
              .error "grid_points must be strictly increasing or decreasing"
          else
            .error "grid_points must be one dimensional"
        | none => check_inputs_tail func y0 y0_floating t none
      else
        .error "t must be a floating point Tensor"
    else
      .error "t must be strictly increasing or decreasing"
  else
    .error "t must be one dimensional"

/-! ### Shape-layer lemmas -/

theorem adjacent_increasing_of_short {l : List ℚ} (h : l.length < 2) :
    adjacent_increasing l = true := by
  match l, h with
  | [], _ => rfl
  | [_], _ => rfl

theorem decreasing_of_short {l : List ℚ} (h : l.length < 2) :
    decreasing l = true := by
  match l, h with
  | [], _ => rfl
  | [_], _ => rfl

theorem flattenTuple_cons (x : Tensor) (xs : List Tensor) :
    flattenTuple (x :: xs) = x.data ++ flattenTuple xs := by
  simp [flattenTuple]

theorem flat_to_shape_none_of_short (shapes : List (List ℕ)) (v : List ℚ)
    (h : v.length < sumNumels shapes) : flat_to_shape v shapes = none := by
  induction shapes generalizing v with
  | nil => simp [sumNumels] at h
  | cons s rest ih =>
    simp only [sumNumels, List.map_cons, List.sum_cons] at h
    by_cases hv : numelOf s ≤ v.length
    · have hlt : (v.drop (numelOf s)).length < sumNumels rest := by
        simp only [List.length_drop, sumNumels]
        omega
      simp [flat_to_shape, List.length_take, Nat.min_eq_left hv, ih _ hlt]
    · have hne : min (numelOf s) v.length ≠ numelOf s := by omega
      simp [flat_to_shape, List.length_take, hne]

theorem flat_to_shape_some_of_long (shapes : List (List ℕ)) (v : List ℚ)
    (h : sumNumels shapes ≤ v.length) :
    ∃ out, flat_to_shape v shapes = some out := by
  induction shapes generalizing v with
  | nil => exact ⟨[], rfl⟩
  | cons s rest ih =>
    simp only [sumNumels, List.map_cons, List.sum_cons] at h
    have hs : numelOf s ≤ v.length := by omega
    have hrest : sumNumels rest ≤ (v.drop (numelOf s)).length := by
      simp only [List.length_drop, sumNumels]
      omega
    obtain ⟨out, hout⟩ := ih _ hrest
    refine ⟨⟨s, v.take (numelOf s)⟩ :: out, ?_⟩
    simp [flat_to_shape, List.length_take, Nat.min_eq_left hs, hout]

/-! ### Claim theorems on the shape layer -/

/-- C1 (failing-input evaluation): on the strictly decreasing time grid
`[5,4,3,2,1]` — one-dimensional and floating — `_check_inputs` does not
normalize the grid: `_assert_increasing` is invoked at line 167, before the
decreasing-grid branch at line 191, so the call raises.  The claim (and the
spec) say validation succeeds and returns the negated grid with a reversed
right-hand side. -/
theorem check_inputs_rejects_decreasing_grid :
    check_inputs (Func.vecF (fun _ y => y)) (Y0.tensor ⟨[1], [1]⟩) true
      ⟨[5], [5, 4, 3, 2, 1]⟩ true none =
      .error "t must be strictly increasing or decreasing" := by
  have h : adjacent_increasing [(5 : ℚ), 4, 3, 2, 1] = false := by decide
  simp [check_inputs, h]

/-- C3 (counterexample): a vector of 2 elements against a shape descriptor
totalling 1 element is a mismatch, yet `_flat_to_shape` happily returns a
tuple, silently dropping the excess — it never checks for a too-long vector. -/
theorem flat_to_shape_long_vector_accepted :
    [(1 : ℚ), 2].length ≠ sumNumels [[1]] ∧
      flat_to_shape [(1 : ℚ), 2] [[1]] = some [⟨[1], [1]⟩] := by
  constructor
  · decide
  · rfl

/-- C3 (amended): `_flat_to_shape` fails (the `view` raises) precisely when
the vector is too short for the shape descriptor; when the vector has at
least as many elements as the descriptor records, it returns a tuple —
silently ignoring any excess trailing elements. -/
theorem flat_to_shape_short_fails_long_succeeds (v : List ℚ)
    (shapes : List (List ℕ)) :
    (v.length < sumNumels shapes → flat_to_shape v shapes = none) ∧
      (sumNumels shapes ≤ v.length → ∃ out, flat_to_shape v shapes = some out) :=
  ⟨flat_to_shape_none_of_short shapes v, flat_to_shape_some_of_long shapes v⟩

/-- C3 witness: the amended theorem applied at concrete inputs — a too-short
vector fails, a too-long vector succeeds. -/
theorem flat_to_shape_short_long_witness :
    flat_to_shape [(1 : ℚ)] [[2]] = none ∧
      ∃ out, flat_to_shape [(1 : ℚ), 2, 3] [[2]] = some out :=
  ⟨(flat_to_shape_short_fails_long_succeeds [(1 : ℚ)] [[2]]).1 (by decide),
    (flat_to_shape_short_fails_long_succeeds [(1 : ℚ), 2, 3] [[2]]).2 (by decide)⟩

/-- C5: recording shapes, flattening and concatenating a tuple of tensors and
unflattening with `_flat_to_shape` reproduces the original tuple exactly,
for every well-formed tuple (each component's data matching its shape). -/
theorem flatten_unflatten_round_trip (xs : List Tensor)
    (hwf : ∀ x ∈ xs, x.data.length = numelOf x.shape) :
    flat_to_shape (flattenTuple xs) (tupleShapes xs) = some xs := by
  induction xs with
  | nil => rfl
  | cons x rest ih =>
    have hx : x.data.length = numelOf x.shape := hwf x (List.mem_cons_self x rest)
    have htake : (flattenTuple (x :: rest)).take (numelOf x.shape) = x.data := by
      rw [flattenTuple_cons]
      exact List.take_left' hx
    have hdrop : (flattenTuple (x :: rest)).drop (numelOf x.shape) =
        flattenTuple rest := by
      rw [flattenTuple_cons]
      exact List.drop_left' hx
    have hrest : flat_to_shape (flattenTuple rest) (tupleShapes rest) = some rest :=
      ih (fun y hy => hwf y (List.mem_cons_of_mem x hy))
    simp only [tupleShapes] at hrest
    simp [tupleShapes, flat_to_shape, htake, hdrop, hx, hrest]

/-- C5 witness: the round trip evaluated on a concrete two-component tuple
with distinct shapes. -/
theorem flatten_unflatten_round_trip_witness :
    flat_to_shape (flattenTuple [⟨[2], [1, 2]⟩, ⟨[2, 2], [3, 4, 5, 6]⟩])
      (tupleShapes [⟨[2], [1, 2]⟩, ⟨[2, 2], [3, 4, 5, 6]⟩]) =
      some [⟨[2], [1, 2]⟩, ⟨[2, 2], [3, 4, 5, 6]⟩] :=
  flatten_unflatten_round_trip [⟨[2], [1, 2]⟩, ⟨[2, 2], [3, 4, 5, 6]⟩] (by decide)

/-- C6: the function produced by `_ReverseFunc` satisfies
`reversed(t, y) == -base(-t, y)` pointwise: at every index the wrapped
output is the negation of the base output at negated time. -/
theorem reverse_func_pointwise (f : Func) (t : ℚ) (y : List ℚ) (i : ℕ) :
    (applyVec (Func.reverseFunc f) t y)[i]? =
      Option.map (fun v => -v) (applyVec f (-t) y)[i]? := by
  simp [applyVec, negL]

/-- C10: a floating time grid with fewer than two points passes every check
vacuously and is treated as decreasing: `_check_inputs` succeeds, returning
the negated grid and the `_ReverseFunc` wrapper around the caller's function
(with a tensor initial state passed through unchanged). -/
theorem check_inputs_short_grid (f : Func) (x : Tensor) (t : Tensor) (n : ℕ)
    (y0_floating : Bool) (hts : t.shape = [n]) (hlen : t.data.length < 2)
    (hy0 : y0_floating = true) :
    check_inputs f (Y0.tensor x) y0_floating t true none =
      .ok (true, [], Func.reverseFunc f, x, negT t, none) := by
  have h1 : t.shape.length = 1 := by rw [hts]; rfl
  have h2 := adjacent_increasing_of_short hlen
  have h3 := decreasing_of_short hlen
  simp [check_inputs, h1, h2, check_inputs_tail, h3, hy0]

/-- C10 witness: the singleton grid `[1/2]` with a concrete tensor state. -/
theorem check_inputs_short_grid_witness :
    check_inputs (Func.vecF (fun _ y => y)) (Y0.tensor ⟨[2], [1, 2]⟩) true
      ⟨[1], [(1 : ℚ) / 2]⟩ true none =
      .ok (true, [], Func.reverseFunc (Func.vecF (fun _ y => y)), ⟨[2], [1, 2]⟩,
        negT ⟨[1], [(1 : ℚ) / 2]⟩, none) :=
  check_inputs_short_grid (Func.vecF (fun _ y => y)) ⟨[2], [1, 2]⟩
    ⟨[1], [(1 : ℚ) / 2]⟩ 1 true rfl (by decide) rfl

/-! ### `_scaled_dot_product` (misc.py lines 6-13) -/

/-- A term of the sequences passed to `_scaled_dot_product`: a Python scalar
or a torch tensor (here, its flattened data; the shape plays no role in the
claim). -/
inductive TVal where
  | scal (r : ℚ)
  | tens (v : List ℚ)
deriving DecidableEq

/-- `_possibly_nonzero(x)` = `isinstance(x, torch.Tensor) or x != 0`
(misc.py lines 6-7). -/
def possibly_nonzero : TVal → Bool
  | .scal r => decide (r ≠ 0)
  | .tens _ => true

/-- Multiplication of scalar/tensor terms with torch broadcasting. -/
def tvMul : TVal → TVal → TVal
  | .scal a, .scal b => .scal (a * b)
  | .scal a, .tens w => .tens (w.map (fun v => a * v))
  | .tens v, .scal b => .tens (v.map (fun a => a * b))
  | .tens v, .tens w => .tens (List.zipWith (fun a b => a * b) v w)

/-- Addition of scalar/tensor terms with torch broadcasting. -/
def tvAdd : TVal → TVal → TVal
  | .scal a, .scal b => .scal (a + b)
  | .scal a, .tens w => .tens (w.map (fun v => a + v))
  | .tens v, .scal b => .tens (v.map (fun a => a + b))
  | .tens v, .tens w => .tens (List.zipWith (fun a b => a + b) v w)

/-- Python `sum(list)`: left fold of `+` starting from the scalar `0`. -/
def pySum (l : List TVal) : TVal := l.foldl tvAdd (.scal 0)

/-- The term `(scale * x) * y` of the comprehension in `_scaled_dot_product`. -/
def sdpTerm (scale : ℚ) (p : TVal × TVal) : TVal :=
  tvMul (tvMul (.scal scale) p.1) p.2

/-- `_scaled_dot_product(scale, xs, ys)` (misc.py lines 10-13): the sum of
`(scale * x) * y` over `zip(xs, ys)`, keeping only the pairs where
`_possibly_nonzero(x) or _possibly_nonzero(y)`. -/
def scaled_dot_product (scale : ℚ) (xs ys : List TVal) : TVal :=
  pySum (((xs.zip ys).filter
    (fun p => possibly_nonzero p.1 || possibly_nonzero p.2)).map (sdpTerm scale))

/-- Modelled from the spec's words for the comparison required by C9: the
plain unconditional weighted sum `sum((scale * x) * y)` over all index
pairs, with no skipping. -/
def plain_scaled_sum (scale : ℚ) (xs ys : List TVal) : TVal :=
  pySum ((xs.zip ys).map (sdpTerm scale))

theorem tvAdd_scal_zero (a : TVal) : tvAdd a (.scal 0) = a := by
  cases a <;> simp [tvAdd]

theorem foldl_tvAdd_filter (q : TVal × TVal → Bool) (f : TVal × TVal → TVal)
    (l : List (TVal × TVal)) (hq : ∀ p ∈ l, q p = false → f p = .scal 0) :
    ∀ acc : TVal, ((l.filter q).map f).foldl tvAdd acc = (l.map f).foldl tvAdd acc := by
  induction l with
  | nil => intro acc; rfl
  | cons p rest ih =>
    intro acc
    have hrest : ∀ r ∈ rest, q r = false → f r = .scal 0 :=
      fun r hr => hq r (List.mem_cons_of_mem p hr)
    by_cases hp : q p = true
    · simp only [List.filter_cons, hp, if_pos, List.map_cons, List.foldl_cons]
      exact ih hrest (tvAdd acc (f p))
    · have hp0 : f p = .scal 0 := hq p (List.mem_cons_self p rest) (by simpa using hp)
      simp only [List.filter_cons, hp, List.map_cons, List.foldl_cons, if_neg,
        Bool.false_eq_true, not_false_eq_true, hp0, tvAdd_scal_zero]
      exact ih hrest acc

/-- C9: the pair-skipping in `_scaled_dot_product` has no semantic effect —
the result equals the plain unconditional weighted sum `sum((scale*x)*y)`
over all index pairs; and when every pair is skipped (both members known-zero
scalars), the result is the zero identity of the empty Python `sum`. -/
theorem scaled_dot_product_eq_plain (scale : ℚ) (xs ys : List TVal) :
    scaled_dot_product scale xs ys = plain_scaled_sum scale xs ys ∧
      ((∀ p ∈ xs.zip ys,
          possibly_nonzero p.1 = false ∧ possibly_nonzero p.2 = false) →
        scaled_dot_product scale xs ys = .scal 0) := by
  constructor
  · have hz : ∀ p ∈ xs.zip ys,
        (possibly_nonzero p.1 || possibly_nonzero p.2) = false →
          sdpTerm scale p = .scal 0 := by
      intro p _ hcond
      rcases Bool.or_eq_false_iff.mp hcond with ⟨h1, h2⟩
      obtain ⟨r, hr⟩ : ∃ r, p.1 = .scal r ∧ r = 0 := by
        cases hx : p.1 with
        | scal r =>
          refine ⟨r, rfl, ?_⟩
          rw [hx] at h1
          simpa [possibly_nonzero] using h1
        | tens v => rw [hx] at h1; simp [possibly_nonzero] at h1
      obtain ⟨s, hs⟩ : ∃ s, p.2 = .scal s ∧ s = 0 := by
        cases hx : p.2 with
        | scal s =>
          refine ⟨s, rfl, ?_⟩
          rw [hx] at h2
          simpa [possibly_nonzero] using h2
        | tens v => rw [hx] at h2; simp [possibly_nonzero] at h2
      simp [sdpTerm, hr.1, hr.2, hs.1, hs.2, tvMul]
    exact foldl_tvAdd_filter _ _ (xs.zip ys) hz (.scal 0)
  · intro hall
    have hfilter : (xs.zip ys).filter
        (fun p => possibly_nonzero p.1 || possibly_nonzero p.2) = [] := by
      rw [List.filter_eq_nil_iff]
      intro p hp
      simp [(hall p hp).1, (hall p hp).2]
    simp [scaled_dot_product, hfilter, pySum]

/-- C9 witness: every pair skipped (`xs = ys = [0]` as plain scalars) gives
the scalar zero, via the theorem. -/
theorem scaled_dot_product_all_skipped_witness :
    scaled_dot_product 5 [TVal.scal 0] [TVal.scal 0] = .scal 0 :=
  (scaled_dot_product_eq_plain 5 [TVal.scal 0] [TVal.scal 0]).2 (by decide)

/-! ### Numeric layer (`ℝ`-valued) -/

/-- Python `max(...)` over a tuple, as used throughout the step-size code.
`maxL [] = 0` is a junk value (Python raises on an empty tuple); theorems
whose meaning depends on it carry nonemptiness hypotheses. -/
noncomputable def maxL : List ℝ → ℝ
  | [] => 0
  | a :: l => l.foldl max a

theorem le_foldl_max (l : List ℝ) : ∀ a : ℝ, a ≤ l.foldl max a := by
  induction l with
  | nil => intro a; exact le_refl a
  | cons b r ih =>
    intro a
    exact le_trans (le_max_left a b) (ih (max a b))

theorem mem_le_foldl_max (l : List ℝ) : ∀ (a x : ℝ), x ∈ l → x ≤ l.foldl max a := by
  induction l with
  | nil => intro a x hx; simp at hx
  | cons b r ih =>
    intro a x hx
    rcases List.mem_cons.mp hx with hx | hx
    · subst hx
      exact le_trans (le_max_right a x) (le_foldl_max r (max a x))
    · exact ih (max a b) x hx

theorem le_maxL_of_mem {l : List ℝ} {x : ℝ} (h : x ∈ l) : x ≤ maxL l := by
  match l, h with
  | a :: r, h =>
    rcases List.mem_cons.mp h with hx | hx
    · subst hx; exact le_foldl_max r x
    · exact mem_le_foldl_max r a x hx

theorem foldl_max_eq_or_mem (l : List ℝ) : ∀ a : ℝ, l.foldl max a = a ∨ l.foldl max a ∈ l := by
  induction l with
  | nil => intro a; exact Or.inl rfl
  | cons b r ih =>
    intro a
    rcases ih (max a b) with h | h
    · rcases max_choice a b with hm | hm
      · exact Or.inl (by rw [List.foldl_cons, h, hm])
      · exact Or.inr (by rw [List.foldl_cons, h, hm]; exact List.mem_cons_self b r)
    · exact Or.inr (List.mem_cons_of_mem b h)

theorem maxL_mem {l : List ℝ} (h : l ≠ []) : maxL l ∈ l := by
  match l, h with
  | a :: r, _ =>
    rcases foldl_max_eq_or_mem r a with h1 | h1
    · rw [maxL, h1]; exact List.mem_cons_self a r
    · exact List.mem_cons_of_mem a (by rw [maxL]; exact h1)

theorem maxL_eq_zero_of_all_zero {l : List ℝ} (h : ∀ x ∈ l, x = 0) : maxL l = 0 := by
  cases hl : l with
  | nil => rfl
  | cons a r =>
    have hmem : maxL (a :: r) ∈ a :: r := maxL_mem (List.cons_ne_nil a r)
    exact h _ (hl ▸ hmem)

/-- `_norm(x)` (misc.py lines 39-41): `x.norm() / math.sqrt(x.numel())`, the
RMS norm of a tensor, acting on its flattened data. -/
noncomputable def rmsNorm (x : List ℝ) : ℝ :=
  Real.sqrt (x.map (fun v => v ^ 2)).sum / Real.sqrt x.length

/-- Three-list `zip`, for comprehensions zipping three tuples. -/
def zipWith3 {α β γ δ : Type _} (f : α → β → γ → δ) : List α → List β → List γ → List δ
  | a :: as, b :: bs, c :: cs => f a b c :: zipWith3 f as bs cs
  | _, _, _ => []

/-- `scale = tuple(atol_ + y0_.abs() * rtol_ ...)` (misc.py line 80). -/
noncomputable def sel_scale (y0 : List (List ℝ)) (atol rtol : List ℝ) : List (List ℝ) :=
  zipWith3 (fun y0c a r => y0c.map (fun v => a + |v| * r)) y0 atol rtol

/-- `d0 = tuple(_norm(y0_ / scale_) ...)` (misc.py line 82). -/
noncomputable def sel_d0 (y0 scale : List (List ℝ)) : List ℝ :=
  List.zipWith (fun y0c sc => rmsNorm (List.zipWith (fun a b => a / b) y0c sc)) y0 scale

/-- `d1 = tuple(_norm(f0_ / scale_) ...)` (misc.py line 83). -/
noncomputable def sel_d1 (f0 scale : List (List ℝ)) : List ℝ :=
  List.zipWith (fun f0c sc => rmsNorm (List.zipWith (fun a b => a / b) f0c sc)) f0 scale

/-- The `h0` branch (misc.py lines 85-88): `1e-6` when the worst `d0` or `d1`
is below `1e-5`, else `0.01 * max(d0_ / d1_ for ...)`. -/
noncomputable def sel_h0 (d0 d1 : List ℝ) : ℝ :=
  if maxL d0 < 1e-5 ∨ maxL d1 < 1e-5 then 1e-6
  else 0.01 * maxL (List.zipWith (fun a b => a / b) d0 d1)

/-- `y1 = tuple(y0_ + h0 * f0_ ...)` (misc.py line 90), the Euler trial state. -/
noncomputable def sel_y1 (y0 f0 : List (List ℝ)) (h0 : ℝ) : List (List ℝ) :=
  List.zipWith (fun y0c f0c => List.zipWith (fun a b => a + h0 * b) y0c f0c) y0 f0

/-- `d2 = tuple(_norm((f1_ - f0_) / scale_) / h0 ...)` (misc.py line 93). -/
noncomputable def sel_d2 (f1 f0 scale : List (List ℝ)) (h0 : ℝ) : List ℝ :=
  zipWith3 (fun f1c f0c sc =>
    rmsNorm (List.zipWith (fun a b => a / b) (List.zipWith (fun a b => a - b) f1c f0c) sc) / h0)
    f1 f0 scale

/-- The `h1` branch (misc.py lines 95-98).  Note `d1 + d2` in the source is
Python tuple concatenation, `d1 ++ d2` here. -/
noncomputable def sel_h1 (d1 d2 : List ℝ) (order h0 : ℝ) : ℝ :=
  if maxL d1 ≤ 1e-15 ∧ maxL d2 ≤ 1e-15 then max 1e-6 (h0 * 1e-3)
  else Real.rpow (0.01 / maxL (d1 ++ d2)) (1 / (order + 1))

/-- `_select_initial_step(func, t0, y0, order, rtol, atol, f0)` (misc.py
lines 44-100): the Hairer-Norsett-Wanner initial-step heuristic.  The final
`.type_as(t0)` cast is the identity in this model. -/
noncomputable def select_initial_step (func : ℝ → List (List ℝ) → List (List ℝ))
    (t0 : ℝ) (y0 : List (List ℝ)) (order : ℝ) (rtol atol : List ℝ)
    (f0opt : Option (List (List ℝ))) : ℝ :=
  let f0 := f0opt.getD (func t0 y0)
  let scale := sel_scale y0 atol rtol
  let d0 := sel_d0 y0 scale
  let d1 := sel_d1 f0 scale
  let h0 := sel_h0 d0 d1
  let y1 := sel_y1 y0 f0 h0
  let f1 := func (t0 + h0) y1
  let d2 := sel_d2 f1 f0 scale h0
  min (100 * h0) (sel_h1 d1 d2 order h0)

/-- `_optimal_step_size(last_step, mean_error_ratio, safety, ifactor,
dfactor, order)` (misc.py lines 109-119).  The `.type_as` / dtype juggling is
the identity in this model; `torch.tensor(order).reciprocal()` is `order⁻¹`. -/
noncomputable def optimal_step_size (last_step : ℝ) (mean_error_ratio : List ℝ)
    (safety ifactor dfactor order : ℝ) : ℝ :=
  let m := maxL mean_error_ratio
  if m = 0 then last_step * ifactor
  else
    let dfactor1 := if m < 1 then 1 else dfactor
    let factor := min ifactor (max (safety / Real.rpow (Real.sqrt m) order⁻¹) dfactor1)
    last_step * factor

/-- C7: whenever the worst (max) mean error ratio is exactly zero,
`_optimal_step_size` grows maximally, returning `last_step * ifactor`
exactly.  (The nonemptiness hypothesis matches Python, where `max` of an
empty tuple raises.) -/
theorem optimal_step_size_zero_ratio (last_step : ℝ) (ratios : List ℝ)
    (safety ifactor dfactor order : ℝ) (hne : ratios ≠ [])
    (h : maxL ratios = 0) :
    optimal_step_size last_step ratios safety ifactor dfactor order =
      last_step * ifactor := by
  simp [optimal_step_size, h]

/-- C7 witness: the ratio tuple `[0, 0]` with concrete parameters. -/
theorem optimal_step_size_zero_ratio_witness :
    optimal_step_size 1 [0, 0] (9 / 10) 10 (1 / 5) 4 = 1 * 10 :=
  optimal_step_size_zero_ratio 1 [0, 0] (9 / 10) 10 (1 / 5) 4 (by simp)
    (by norm_num [maxL])

/-- C8: for a positive last step, `ifactor ≥ 1`, and a worst mean error ratio
strictly between 0 and 1, `_optimal_step_size` never shrinks the step — the
result is at least `last_step` — and the deflation factor is clamped to 1, so
`dfactor` has no effect on the result in this regime. -/
theorem optimal_step_size_no_shrink (last_step : ℝ) (ratios : List ℝ)
    (safety ifactor dfactor dfactor2 order : ℝ)
    (hlast : 0 < last_step) (hif : 1 ≤ ifactor)
    (h0 : 0 < maxL ratios) (h1 : maxL ratios < 1) :
    last_step ≤ optimal_step_size last_step ratios safety ifactor dfactor order ∧
      optimal_step_size last_step ratios safety ifactor dfactor order =
        optimal_step_size last_step ratios safety ifactor dfactor2 order := by
  have hne : maxL ratios ≠ 0 := ne_of_gt h0
  constructor
  · have hfac : (1 : ℝ) ≤
        min ifactor (max (safety / Real.rpow (Real.sqrt (maxL ratios)) order⁻¹) 1) :=
      le_min hif (le_max_right _ _)
    have heq : optimal_step_size last_step ratios safety ifactor dfactor order =
        last_step *
          min ifactor (max (safety / Real.rpow (Real.sqrt (maxL ratios)) order⁻¹) 1) := by
      simp [optimal_step_size, if_neg hne, if_pos h1]
    rw [heq]
    nth_rewrite 1 [← mul_one last_step]
    exact mul_le_mul_of_nonneg_left hfac (le_of_lt hlast)
  · simp [optimal_step_size, if_neg hne, if_pos h1]

/-- C8 witness: ratio tuple `[1/4]` (worst ratio strictly between 0 and 1)
with two different deflation factors. -/
theorem optimal_step_size_no_shrink_witness :
    1 ≤ optimal_step_size 1 [1 / 4] (9 / 10) 2 (1 / 5) 1 ∧
      optimal_step_size 1 [1 / 4] (9 / 10) 2 (1 / 5) 1 =
        optimal_step_size 1 [1 / 4] (9 / 10) 2 3 1 :=
  optimal_step_size_no_shrink 1 [1 / 4] (9 / 10) 2 (1 / 5) 3 1 (by norm_num)
    (by norm_num) (by norm_num [maxL]) (by norm_num [maxL])

/-! ### Lemmas for `_select_initial_step` -/

theorem rmsNorm_single (a : ℝ) : rmsNorm [a] = |a| := by
  simp [rmsNorm, Real.sqrt_sq_eq_abs]

theorem rmsNorm_all_zero {x : List ℝ} (h : ∀ v ∈ x, v = 0) : rmsNorm x = 0 := by
  have hsum : (x.map (fun v => v ^ 2)).sum = 0 := by
    apply List.sum_eq_zero
    intro y hy
    obtain ⟨v, hv, rfl⟩ := List.mem_map.mp hy
    rw [h v hv]
    norm_num
  simp [rmsNorm, hsum]

theorem mem_zipWith_imp {α β γ : Type _} (f : α → β → γ) (P : γ → Prop)
    (as : List α) (bs : List β) (h : ∀ a ∈ as, ∀ b ∈ bs, P (f a b)) :
    ∀ u ∈ List.zipWith f as bs, P u := by
  induction as generalizing bs with
  | nil => intro u hu; simp at hu
  | cons a as ih =>
    cases bs with
    | nil => intro u hu; simp at hu
    | cons b bs =>
      intro u hu
      rcases List.mem_cons.mp hu with hu | hu
      · subst hu
        exact h a (List.mem_cons_self a as) b (List.mem_cons_self b bs)
      · exact ih bs
          (fun x hx y hy =>
            h x (List.mem_cons_of_mem a hx) y (List.mem_cons_of_mem b hy)) u hu

theorem mem_zipWith3_imp {α β γ δ : Type _} (f : α → β → γ → δ) (P : δ → Prop)
    (as : List α) (bs : List β) (cs : List γ)
    (h : ∀ a ∈ as, ∀ b ∈ bs, ∀ c ∈ cs, P (f a b c)) :
    ∀ u ∈ zipWith3 f as bs cs, P u := by
  induction as generalizing bs cs with
  | nil => intro u hu; simp [zipWith3] at hu
  | cons a as ih =>
    cases bs with
    | nil => intro u hu; simp [zipWith3] at hu
    | cons b bs =>
      cases cs with
      | nil => intro u hu; simp [zipWith3] at hu
      | cons c cs =>
        intro u hu
        rcases List.mem_cons.mp hu with hu | hu
        · subst hu
          exact h a (List.mem_cons_self a as) b (List.mem_cons_self b bs) c
            (List.mem_cons_self c cs)
        · exact ih bs cs
            (fun x hx y hy z hz =>
              h x (List.mem_cons_of_mem a hx) y (List.mem_cons_of_mem b hy) z
                (List.mem_cons_of_mem c hz)) u hu

theorem zipWith3_length {α β γ δ : Type _} (f : α → β → γ → δ) :
    ∀ (as : List α) (bs : List β) (cs : List γ),
      (zipWith3 f as bs cs).length = min as.length (min bs.length cs.length) := by
  intro as
  induction as with
  | nil => intro bs cs; simp [zipWith3]
  | cons a as ih =>
    intro bs cs
    cases bs with
    | nil => simp [zipWith3]
    | cons b bs =>
      cases cs with
      | nil => simp [zipWith3]
      | cons c cs =>
        simp only [zipWith3, List.length_cons, ih bs cs]
        omega

theorem sel_h0_pos (d0 d1 : List ℝ) (hlen : d0.length ≤ d1.length)
    (hd1 : ∀ d ∈ d1, 0 < d) : 0 < sel_h0 d0 d1 := by
  by_cases hc : maxL d0 < 1e-5 ∨ maxL d1 < 1e-5
  · rw [sel_h0, if_pos hc]; norm_num
  · rw [sel_h0, if_neg hc]
    push_neg at hc
    have hd0ne : d0 ≠ [] := by
      intro hnil
      rw [hnil] at hc
      norm_num [maxL] at hc
    obtain ⟨n, hn⟩ := List.mem_iff_get.mp (maxL_mem hd0ne)
    have hnlt : (n : ℕ) < (List.zipWith (fun a b => a / b) d0 d1).length := by
      rw [List.length_zipWith]
      exact lt_min n.isLt (lt_of_lt_of_le n.isLt hlen)
    have hget : (List.zipWith (fun a b => a / b) d0 d1).get ⟨n, hnlt⟩ =
        d0.get n / d1.get ⟨n, lt_of_lt_of_le n.isLt hlen⟩ := by
      rw [List.get_zipWith]
    have hpos : 0 < (List.zipWith (fun a b => a / b) d0 d1).get ⟨n, hnlt⟩ := by
      rw [hget, hn]
      exact div_pos (lt_of_lt_of_le (by norm_num) hc.1)
        (hd1 _ (List.get_mem d1 _ _))
    have hle := le_maxL_of_mem (List.get_mem _ _ hnlt)
    have : (0 : ℝ) < maxL (List.zipWith (fun a b => a / b) d0 d1) :=
      lt_of_lt_of_le hpos hle
    positivity

theorem sel_h1_pos (d1 d2 : List ℝ) (order h0 : ℝ) : 0 < sel_h1 d1 d2 order h0 := by
  by_cases hc : maxL d1 ≤ 1e-15 ∧ maxL d2 ≤ 1e-15
  · rw [sel_h1, if_pos hc]
    exact lt_of_lt_of_le (by norm_num) (le_max_left _ _)
  · rw [sel_h1, if_neg hc]
    have hm : (0 : ℝ) < maxL (d1 ++ d2) := by
      rcases not_and_or.mp hc with hc1 | hc2
      · push_neg at hc1
        have hne : d1 ≠ [] := by
          intro hnil
          rw [hnil] at hc1
          norm_num [maxL] at hc1
        have : maxL d1 ∈ d1 ++ d2 := List.mem_append_left d2 (maxL_mem hne)
        exact lt_of_lt_of_le (lt_trans (by norm_num) hc1) (le_maxL_of_mem this)
      · push_neg at hc2
        have hne : d2 ≠ [] := by
          intro hnil
          rw [hnil] at hc2
          norm_num [maxL] at hc2
        have : maxL d2 ∈ d1 ++ d2 := List.mem_append_right d1 (maxL_mem hne)
        exact lt_of_lt_of_le (lt_trans (by norm_num) hc2) (le_maxL_of_mem this)
    exact Real.rpow_pos_of_pos (div_pos (by norm_num) hm) _

/-- C2 (counterexample): with `y0 = ((0,),)` the zero vector and
`f0 = rhs(t0, y0) = ((0,),)` the zero vector (a time-dependent right-hand
side `f(t, y) = (1e6 * t,)` that vanishes at `t0 = 0`), positive
`atol = (1,)`, `_select_initial_step` returns `1e-4`, not `1e-6`: the Euler
trial evaluation `f1 = rhs(t0 + h0, y1)` is nonzero, so the curvature
estimate `d2` is large and the non-degenerate `h1` branch is taken. -/
theorem select_initial_step_degenerate_counterexample :
    (fun (t : ℝ) (_ : List (List ℝ)) => [[1000000 * t]]) 0 [[0]] = [[(0 : ℝ)]] ∧
      select_initial_step (fun (t : ℝ) (_ : List (List ℝ)) => [[1000000 * t]])
        0 [[0]] 1 [0] [1] none = 1e-4 ∧
      (1e-4 : ℝ) ≠ 1e-6 := by
  refine ⟨by norm_num, ?_, by norm_num⟩
  have e1 : sel_scale [[(0 : ℝ)]] [1] [0] = [[1]] := by
    norm_num [sel_scale, zipWith3]
  have e2 : sel_d0 [[(0 : ℝ)]] [[1]] = [0] := by
    norm_num [sel_d0, rmsNorm_single]
  have e3 : sel_d1 [[(0 : ℝ)]] [[1]] = [0] := by
    norm_num [sel_d1, rmsNorm_single]
  have e4 : sel_h0 [(0 : ℝ)] [0] = 1e-6 := by
    rw [sel_h0, if_pos]
    norm_num [maxL]
  have e6 : sel_d2 [[(1 : ℝ)]] [[0]] [[1]] 1e-6 = [1000000] := by
    norm_num [sel_d2, zipWith3, rmsNorm_single]
  have e7 : sel_h1 [(0 : ℝ)] [1000000] 1 1e-6 = 1e-4 := by
    rw [sel_h1, if_neg]
    · have hm : maxL ([(0 : ℝ)] ++ [1000000]) = 1000000 := by
        norm_num [maxL]
      rw [hm, show (0.01 / 1000000 : ℝ) = 1e-8 by norm_num,
        show (1 / ((1 : ℝ) + 1)) = (1 / 2 : ℝ) by norm_num]
      rw [show Real.rpow (1e-8 : ℝ) (1 / 2 : ℝ) = Real.sqrt 1e-8 from
        (Real.sqrt_eq_rpow _).symm]
      rw [show (1e-8 : ℝ) = (1e-4 : ℝ) ^ 2 by norm_num]
      exact Real.sqrt_sq (by norm_num)
    · norm_num [maxL]
  simp only [select_initial_step, Option.getD_none, mul_zero]
  rw [e1, e2, e3, e4, zero_add,
    show ((1000000 : ℝ) * 1e-6) = 1 by norm_num, e6, e7]
  norm_num

/-- C2 (amended): `_select_initial_step` returns a strictly positive value
for every valid input (components aligned in length, and each component of
`f0` of positive scaled norm whenever the non-degenerate `h0` branch can be
taken), and returns exactly `1e-6` in the degenerate case where `y0` is the
zero vector, `f0 = rhs(t0, y0)` is the zero vector, and the right-hand side
also vanishes at the Euler trial point `(t0 + 1e-6, y1)` — the condition the
unamended claim omits. -/
theorem select_initial_step_pos_and_degenerate
    (func : ℝ → List (List ℝ) → List (List ℝ)) (t0 : ℝ) (y0 : List (List ℝ))
    (order : ℝ) (rtol atol : List ℝ) :
    (y0 ≠ [] → atol.length = y0.length → rtol.length = y0.length →
      (func t0 y0).length = y0.length →
      (∀ d ∈ sel_d1 (func t0 y0) (sel_scale y0 atol rtol), 0 < d) →
      0 < select_initial_step func t0 y0 order rtol atol none) ∧
    ((∀ a ∈ atol, 0 < a) →
      (∀ c ∈ y0, ∀ v ∈ c, v = 0) →
      (∀ c ∈ func t0 y0, ∀ v ∈ c, v = 0) →
      (∀ c ∈ func (t0 + 1e-6) (sel_y1 y0 (func t0 y0) 1e-6), ∀ v ∈ c, v = 0) →
      select_initial_step func t0 y0 order rtol atol none = 1e-6) := by
  constructor
  · intro hy ha hr hf hd1
    have hlscale : (sel_scale y0 atol rtol).length = y0.length := by
      rw [sel_scale, zipWith3_length, ha, hr]
      omega
    have hld0 : (sel_d0 y0 (sel_scale y0 atol rtol)).length = y0.length := by
      rw [sel_d0, List.length_zipWith, hlscale]
      omega
    have hld1 : (sel_d1 (func t0 y0) (sel_scale y0 atol rtol)).length = y0.length := by
      rw [sel_d1, List.length_zipWith, hf, hlscale]
      omega
    have hlen : (sel_d0 y0 (sel_scale y0 atol rtol)).length ≤
        (sel_d1 (func t0 y0) (sel_scale y0 atol rtol)).length := by
      rw [hld0, hld1]
    have hh0 := sel_h0_pos _ _ hlen hd1
    simp only [select_initial_step, Option.getD_none]
    exact lt_min (by positivity) (sel_h1_pos _ _ _ _)
  · intro hatol hy0 hf0 hf1
    have hd0z : ∀ d ∈ sel_d0 y0 (sel_scale y0 atol rtol), d = 0 := by
      apply mem_zipWith_imp
      intro y0c hy0c sc hsc
      apply rmsNorm_all_zero
      apply mem_zipWith_imp (P := fun u => u = 0)
      intro a hamem b hbmem
      rw [hy0 y0c hy0c a hamem]
      exact zero_div b
    have hd1z : ∀ d ∈ sel_d1 (func t0 y0) (sel_scale y0 atol rtol), d = 0 := by
      apply mem_zipWith_imp
      intro f0c hf0c sc hsc
      apply rmsNorm_all_zero
      apply mem_zipWith_imp (P := fun u => u = 0)
      intro a hamem b hbmem
      rw [hf0 f0c hf0c a hamem]
      exact zero_div b
    have hmax0 : maxL (sel_d0 y0 (sel_scale y0 atol rtol)) = 0 :=
      maxL_eq_zero_of_all_zero hd0z
    have hmax1 : maxL (sel_d1 (func t0 y0) (sel_scale y0 atol rtol)) = 0 :=
      maxL_eq_zero_of_all_zero hd1z
    have hh0 : sel_h0 (sel_d0 y0 (sel_scale y0 atol rtol))
        (sel_d1 (func t0 y0) (sel_scale y0 atol rtol)) = 1e-6 := by
      rw [sel_h0, if_pos]
      rw [hmax0]
      left
      norm_num
    have hd2z : ∀ d ∈ sel_d2 (func (t0 + 1e-6) (sel_y1 y0 (func t0 y0) 1e-6))
        (func t0 y0) (sel_scale y0 atol rtol) 1e-6, d = 0 := by
      apply mem_zipWith3_imp
      intro f1c hf1c f0c hf0c sc hsc
      have hnorm : rmsNorm (List.zipWith (fun a b => a / b)
          (List.zipWith (fun a b => a - b) f1c f0c) sc) = 0 := by
        apply rmsNorm_all_zero
        apply mem_zipWith_imp (P := fun u => u = 0)
        intro a hamem b hbmem
        have ha0 : a = 0 := by
          revert a hamem
          apply mem_zipWith_imp (P := fun u => u = 0)
          intro p hpmem q hqmem
          rw [hf1 f1c hf1c p hpmem, hf0 f0c hf0c q hqmem]
          norm_num
        rw [ha0]
        exact zero_div b
      rw [hnorm]
      exact zero_div _
    have hmax2 : maxL (sel_d2 (func (t0 + 1e-6) (sel_y1 y0 (func t0 y0) 1e-6))
        (func t0 y0) (sel_scale y0 atol rtol) 1e-6) = 0 :=
      maxL_eq_zero_of_all_zero hd2z
    have hh1 : sel_h1 (sel_d1 (func t0 y0) (sel_scale y0 atol rtol))
        (sel_d2 (func (t0 + 1e-6) (sel_y1 y0 (func t0 y0) 1e-6))
          (func t0 y0) (sel_scale y0 atol rtol) 1e-6) order 1e-6 = 1e-6 := by
      rw [sel_h1, if_pos]
      · rw [max_eq_left (by norm_num)]
      · rw [hmax1, hmax2]
        constructor <;> norm_num
    simp only [select_initial_step, Option.getD_none]
    rw [hh0, hh1]
    rw [min_eq_right (by norm_num)]

/-- C2 witness: the amended theorem applied at two concrete inputs — a
nonzero one-component state for positivity, and the all-zero degenerate
problem (`rhs` identically zero) returning exactly `1e-6`. -/
theorem select_initial_step_pos_and_degenerate_witness :
    0 < select_initial_step (fun (_ : ℝ) (_ : List (List ℝ)) => [[1]])
        0 [[1]] 1 [0] [1] none ∧
      select_initial_step (fun (_ : ℝ) (_ : List (List ℝ)) => [[0]])
        0 [[0]] 1 [0] [1] none = 1e-6 :=
  ⟨(select_initial_step_pos_and_degenerate
      (fun (_ : ℝ) (_ : List (List ℝ)) => [[1]]) 0 [[1]] 1 [0] [1]).1
      (by simp) rfl rfl rfl
      (by
        intro d hd
        norm_num [sel_d1, sel_scale, zipWith3, rmsNorm_single] at hd
        rw [hd]
        norm_num),
    (select_initial_step_pos_and_degenerate
      (fun (_ : ℝ) (_ : List (List ℝ)) => [[0]]) 0 [[0]] 1 [0] [1]).2
      (by norm_num) (by norm_num) (by norm_num) (by norm_num)⟩

/-- Modelled from the spec claim C4 for comparison: the claimed second step
estimate reading `d1 + d2` as the per-component (elementwise) sum of the
derivative-scale and curvature-scale tuples.  In the source, `d1 + d2` is
Python tuple concatenation, so this definition deliberately follows the
claim's words, not the code. -/
noncomputable def sel_h1_elementwise_sum (d1 d2 : List ℝ) (order : ℝ) : ℝ :=
  Real.rpow (0.01 / maxL (List.zipWith (fun a b => a + b) d1 d2)) (1 / (order + 1))

/-- C4 (amended): whenever the worst-case `d1` or `d2` exceeds `1e-15`, the
second step estimate is `h1 = (0.01 / max(d1 ++ d2)) ** (1/(order+1))` where
`d1 ++ d2` is the **concatenation** of the two tuples (Python tuple `+`), so
the max is taken over all entries of both tuples — not over per-component
sums; and `_select_initial_step` returns `min(100*h0, h1)` (the `.type_as`
cast being the identity here). -/
theorem select_initial_step_h1_formula :
    (∀ (d1 d2 : List ℝ) (order h0 : ℝ),
      ¬ (maxL d1 ≤ 1e-15 ∧ maxL d2 ≤ 1e-15) →
        sel_h1 d1 d2 order h0 =
          Real.rpow (0.01 / maxL (d1 ++ d2)) (1 / (order + 1))) ∧
    (∀ (func : ℝ → List (List ℝ) → List (List ℝ)) (t0 : ℝ) (y0 : List (List ℝ))
        (order : ℝ) (rtol atol : List ℝ) (f0opt : Option (List (List ℝ))),
      select_initial_step func t0 y0 order rtol atol f0opt =
        min (100 * sel_h0 (sel_d0 y0 (sel_scale y0 atol rtol))
            (sel_d1 (f0opt.getD (func t0 y0)) (sel_scale y0 atol rtol)))
          (sel_h1 (sel_d1 (f0opt.getD (func t0 y0)) (sel_scale y0 atol rtol))
            (sel_d2
              (func (t0 + sel_h0 (sel_d0 y0 (sel_scale y0 atol rtol))
                  (sel_d1 (f0opt.getD (func t0 y0)) (sel_scale y0 atol rtol)))
                (sel_y1 y0 (f0opt.getD (func t0 y0))
                  (sel_h0 (sel_d0 y0 (sel_scale y0 atol rtol))
                    (sel_d1 (f0opt.getD (func t0 y0)) (sel_scale y0 atol rtol)))))
              (f0opt.getD (func t0 y0)) (sel_scale y0 atol rtol)
              (sel_h0 (sel_d0 y0 (sel_scale y0 atol rtol))
                (sel_d1 (f0opt.getD (func t0 y0)) (sel_scale y0 atol rtol))))
            order
            (sel_h0 (sel_d0 y0 (sel_scale y0 atol rtol))
              (sel_d1 (f0opt.getD (func t0 y0)) (sel_scale y0 atol rtol))))) := by
  constructor
  · intro d1 d2 order h0 h
    rw [sel_h1, if_neg h]
  · intro func t0 y0 order rtol atol f0opt
    rfl

/-- C4 witness: the amended theorem applied at concrete inputs — the `h1`
formula at `d1 = [0]`, `d2 = [1000000]` (curvature exceeding `1e-15`), and
the return shape at a concrete one-component problem. -/
theorem select_initial_step_h1_formula_witness :
    sel_h1 [(0 : ℝ)] [1000000] 1 1e-6 =
      Real.rpow (0.01 / maxL ([(0 : ℝ)] ++ [1000000])) (1 / ((1 : ℝ) + 1)) ∧
    select_initial_step (fun (_ : ℝ) (_ : List (List ℝ)) => [[1]]) 0 [[1]] 1
        [0] [1] none =
      min (100 * sel_h0 (sel_d0 [[1]] (sel_scale [[1]] [1] [0]))
          (sel_d1 ((none : Option (List (List ℝ))).getD
              ((fun (_ : ℝ) (_ : List (List ℝ)) => [[1]]) 0 [[1]]))
            (sel_scale [[1]] [1] [0])))
        (sel_h1 (sel_d1 ((none : Option (List (List ℝ))).getD
              ((fun (_ : ℝ) (_ : List (List ℝ)) => [[1]]) 0 [[1]]))
            (sel_scale [[1]] [1] [0]))
          (sel_d2
            ((fun (_ : ℝ) (_ : List (List ℝ)) => [[1]])
              (0 + sel_h0 (sel_d0 [[1]] (sel_scale [[1]] [1] [0]))
                (sel_d1 ((none : Option (List (List ℝ))).getD
                    ((fun (_ : ℝ) (_ : List (List ℝ)) => [[1]]) 0 [[1]]))
                  (sel_scale [[1]] [1] [0])))
              (sel_y1 [[1]] ((none : Option (List (List ℝ))).getD
                  ((fun (_ : ℝ) (_ : List (List ℝ)) => [[1]]) 0 [[1]]))
                (sel_h0 (sel_d0 [[1]] (sel_scale [[1]] [1] [0]))
                  (sel_d1 ((none : Option (List (List ℝ))).getD
                      ((fun (_ : ℝ) (_ : List (List ℝ)) => [[1]]) 0 [[1]]))
                    (sel_scale [[1]] [1] [0])))))
            ((none : Option (List (List ℝ))).getD
              ((fun (_ : ℝ) (_ : List (List ℝ)) => [[1]]) 0 [[1]]))
            (sel_scale [[1]] [1] [0])
            (sel_h0 (sel_d0 [[1]] (sel_scale [[1]] [1] [0]))
              (sel_d1 ((none : Option (List (List ℝ))).getD
                  ((fun (_ : ℝ) (_ : List (List ℝ)) => [[1]]) 0 [[1]]))
                (sel_scale [[1]] [1] [0]))))
          1
          (sel_h0 (sel_d0 [[1]] (sel_scale [[1]] [1] [0]))
            (sel_d1 ((none : Option (List (List ℝ))).getD
                ((fun (_ : ℝ) (_ : List (List ℝ)) => [[1]]) 0 [[1]]))
              (sel_scale [[1]] [1] [0])))) :=
  ⟨select_initial_step_h1_formula.1 [0] [1000000] 1 1e-6 (by norm_num [maxL]),
    select_initial_step_h1_formula.2
      (fun (_ : ℝ) (_ : List (List ℝ)) => [[1]]) 0 [[1]] 1 [0] [1] none⟩

/-- C4 (counterexample): a concrete two-component problem in the
non-degenerate branch (`d1 = (2e6, 1e6)`, `d2 = (1e6, 2e6)`) on which the
code's `max(d1 + d2)` — tuple concatenation, giving `2e6` — differs from the
claim's per-component sum reading — `max(d1_i + d2_i) = 3e6` — and the two
step sizes `sqrt(0.01/2e6)` and `sqrt(0.01/3e6)` both survive the final
`min`, so `_select_initial_step` does not return the claimed value. -/
theorem select_initial_step_h1_sum_counterexample :
    ¬ (maxL (sel_d1 ((none : Option (List (List ℝ))).getD
          ((fun (t : ℝ) (_ : List (List ℝ)) =>
            [[2000000 + 1000000 * t], [1000000 + 2000000 * t]]) 0 [[0], [0]]))
        (sel_scale [[0], [0]] [1, 1] [0, 0])) ≤ 1e-15 ∧
      maxL (sel_d2
        ((fun (t : ℝ) (_ : List (List ℝ)) =>
            [[2000000 + 1000000 * t], [1000000 + 2000000 * t]])
          (0 + sel_h0 (sel_d0 [[0], [0]] (sel_scale [[0], [0]] [1, 1] [0, 0]))
            (sel_d1 ((none : Option (List (List ℝ))).getD
                ((fun (t : ℝ) (_ : List (List ℝ)) =>
                  [[2000000 + 1000000 * t], [1000000 + 2000000 * t]]) 0 [[0], [0]]))
              (sel_scale [[0], [0]] [1, 1] [0, 0])))
          (sel_y1 [[0], [0]] ((none : Option (List (List ℝ))).getD
              ((fun (t : ℝ) (_ : List (List ℝ)) =>
                [[2000000 + 1000000 * t], [1000000 + 2000000 * t]]) 0 [[0], [0]]))
            (sel_h0 (sel_d0 [[0], [0]] (sel_scale [[0], [0]] [1, 1] [0, 0]))
              (sel_d1 ((none : Option (List (List ℝ))).getD
                  ((fun (t : ℝ) (_ : List (List ℝ)) =>
                    [[2000000 + 1000000 * t], [1000000 + 2000000 * t]]) 0 [[0], [0]]))
                (sel_scale [[0], [0]] [1, 1] [0, 0])))))
        ((none : Option (List (List ℝ))).getD
          ((fun (t : ℝ) (_ : List (List ℝ)) =>
            [[2000000 + 1000000 * t], [1000000 + 2000000 * t]]) 0 [[0], [0]]))
        (sel_scale [[0], [0]] [1, 1] [0, 0])
        (sel_h0 (sel_d0 [[0], [0]] (sel_scale [[0], [0]] [1, 1] [0, 0]))
          (sel_d1 ((none : Option (List (List ℝ))).getD
              ((fun (t : ℝ) (_ : List (List ℝ)) =>
                [[2000000 + 1000000 * t], [1000000 + 2000000 * t]]) 0 [[0], [0]]))
            (sel_scale [[0], [0]] [1, 1] [0, 0])))) ≤ 1e-15) ∧
    select_initial_step (fun (t : ℝ) (_ : List (List ℝ)) =>
        [[2000000 + 1000000 * t], [1000000 + 2000000 * t]]) 0 [[0], [0]] 1
        [0, 0] [1, 1] none ≠
      min (100 * sel_h0 (sel_d0 [[0], [0]] (sel_scale [[0], [0]] [1, 1] [0, 0]))
          (sel_d1 ((none : Option (List (List ℝ))).getD
              ((fun (t : ℝ) (_ : List (List ℝ)) =>
                [[2000000 + 1000000 * t], [1000000 + 2000000 * t]]) 0 [[0], [0]]))
            (sel_scale [[0], [0]] [1, 1] [0, 0])))
        (sel_h1_elementwise_sum
          (sel_d1 ((none : Option (List (List ℝ))).getD
              ((fun (t : ℝ) (_ : List (List ℝ)) =>
                [[2000000 + 1000000 * t], [1000000 + 2000000 * t]]) 0 [[0], [0]]))
            (sel_scale [[0], [0]] [1, 1] [0, 0]))
          (sel_d2
            ((fun (t : ℝ) (_ : List (List ℝ)) =>
                [[2000000 + 1000000 * t], [1000000 + 2000000 * t]])
              (0 + sel_h0 (sel_d0 [[0], [0]] (sel_scale [[0], [0]] [1, 1] [0, 0]))
                (sel_d1 ((none : Option (List (List ℝ))).getD
                    ((fun (t : ℝ) (_ : List (List ℝ)) =>
                      [[2000000 + 1000000 * t], [1000000 + 2000000 * t]]) 0 [[0], [0]]))
                  (sel_scale [[0], [0]] [1, 1] [0, 0])))
              (sel_y1 [[0], [0]] ((none : Option (List (List ℝ))).getD
                  ((fun (t : ℝ) (_ : List (List ℝ)) =>
                    [[2000000 + 1000000 * t], [1000000 + 2000000 * t]]) 0 [[0], [0]]))
                (sel_h0 (sel_d0 [[0], [0]] (sel_scale [[0], [0]] [1, 1] [0, 0]))
                  (sel_d1 ((none : Option (List (List ℝ))).getD
                      ((fun (t : ℝ) (_ : List (List ℝ)) =>
                        [[2000000 + 1000000 * t], [1000000 + 2000000 * t]]) 0 [[0], [0]]))
                    (sel_scale [[0], [0]] [1, 1] [0, 0])))))
            ((none : Option (List (List ℝ))).getD
              ((fun (t : ℝ) (_ : List (List ℝ)) =>
                [[2000000 + 1000000 * t], [1000000 + 2000000 * t]]) 0 [[0], [0]]))
            (sel_scale [[0], [0]] [1, 1] [0, 0])
            (sel_h0 (sel_d0 [[0], [0]] (sel_scale [[0], [0]] [1, 1] [0, 0]))
              (sel_d1 ((none : Option (List (List ℝ))).getD
                  ((fun (t : ℝ) (_ : List (List ℝ)) =>
                    [[2000000 + 1000000 * t], [1000000 + 2000000 * t]]) 0 [[0], [0]]))
                (sel_scale [[0], [0]] [1, 1] [0, 0]))))
          1) := by
  have c1 : sel_scale [[(0 : ℝ)], [0]] [1, 1] [0, 0] = [[1], [1]] := by
    norm_num [sel_scale, zipWith3]
  have c3 : sel_d0 [[(0 : ℝ)], [0]] [[1], [1]] = [0, 0] := by
    norm_num [sel_d0, rmsNorm_single]
  have c4 : sel_d1 [[(2000000 : ℝ)], [1000000]] [[1], [1]] = [2000000, 1000000] := by
    norm_num [sel_d1, rmsNorm_single, abs_of_pos]
  have c5 : sel_h0 [(0 : ℝ), 0] [2000000, 1000000] = 1e-6 := by
    rw [sel_h0, if_pos (Or.inl (show maxL [(0 : ℝ), 0] < 1e-5 by norm_num [maxL]))]
  have c7 : sel_d2 [[(2000001 : ℝ)], [1000002]] [[2000000], [1000000]] [[1], [1]]
      1e-6 = [1000000, 2000000] := by
    norm_num [sel_d2, zipWith3, rmsNorm_single, abs_of_pos]
  have m1 : max (2000000 : ℝ) 1000000 = 2000000 := max_eq_left (by norm_num)
  have m3 : max (1000000 : ℝ) 2000000 = 2000000 := max_eq_right (by norm_num)
  have mA : maxL [(2000000 : ℝ), 1000000] = 2000000 := by
    simp only [maxL, List.foldl_cons, List.foldl_nil, m1]
  have mB : maxL [(1000000 : ℝ), 2000000] = 2000000 := by
    simp only [maxL, List.foldl_cons, List.foldl_nil, m3]
  have c8 : sel_h1 [(2000000 : ℝ), 1000000] [1000000, 2000000] 1 1e-6 =
      Real.sqrt (1 / 200000000) := by
    rw [sel_h1, if_neg (by rw [mA, mB]; norm_num)]
    have mC : maxL ([(2000000 : ℝ), 1000000] ++ [1000000, 2000000]) = 2000000 := by
      simp only [List.cons_append, List.nil_append, maxL, List.foldl_cons,
        List.foldl_nil, m1, max_self]
    rw [mC, show (0.01 / (2000000 : ℝ)) = 1 / 200000000 by norm_num,
      show (1 / ((1 : ℝ) + 1)) = (1 / 2 : ℝ) by norm_num,
      show Real.rpow (1 / 200000000 : ℝ) (1 / 2 : ℝ) =
        (1 / 200000000 : ℝ) ^ (1 / 2 : ℝ) from rfl,
      ← Real.sqrt_eq_rpow]
  have c9 : sel_h1_elementwise_sum [(2000000 : ℝ), 1000000] [1000000, 2000000] 1 =
      Real.sqrt (1 / 300000000) := by
    rw [sel_h1_elementwise_sum]
    simp only [List.zipWith_cons_cons, List.zipWith_nil_right]
    rw [show ((2000000 : ℝ) + 1000000) = 3000000 by norm_num,
      show ((1000000 : ℝ) + 2000000) = 3000000 by norm_num]
    simp only [maxL, List.foldl_cons, List.foldl_nil, max_self]
    rw [show (0.01 / (3000000 : ℝ)) = 1 / 300000000 by norm_num,
      show (1 / ((1 : ℝ) + 1)) = (1 / 2 : ℝ) by norm_num,
      show Real.rpow (1 / 300000000 : ℝ) (1 / 2 : ℝ) =
        (1 / 300000000 : ℝ) ^ (1 / 2 : ℝ) from rfl,
      ← Real.sqrt_eq_rpow]
  constructor
  · simp only [Option.getD_none, mul_zero, add_zero, zero_add]
    rw [c1, c3, c4, c5, show ((2000000 : ℝ) + 1000000 * 1e-6) = 2000001 by norm_num,
      show ((1000000 : ℝ) + 2000000 * 1e-6) = 1000002 by norm_num, c7, mA, mB]
    norm_num
  · simp only [select_initial_step, Option.getD_none, mul_zero, add_zero, zero_add]
    rw [c1, c3, c4, c5, show ((2000000 : ℝ) + 1000000 * 1e-6) = 2000001 by norm_num,
      show ((1000000 : ℝ) + 2000000 * 1e-6) = 1000002 by norm_num, c7, c8, c9,
      show ((100 : ℝ) * 1e-6) = 1e-4 by norm_num]
    have hs1 : Real.sqrt (1 / 200000000) ≤ (1e-4 : ℝ) :=
      le_of_lt ((Real.sqrt_lt' (by norm_num)).mpr (by norm_num))
    have hs2 : Real.sqrt (1 / 300000000) ≤ (1e-4 : ℝ) :=
      le_of_lt ((Real.sqrt_lt' (by norm_num)).mpr (by norm_num))
    rw [min_eq_right hs1, min_eq_right hs2]
    exact ne_of_gt (Real.sqrt_lt_sqrt (by norm_num) (by norm_num))
